import Mathlib

set_option autoImplicit false

/-
Verification of the mongoose/Redis query-cache layer.

Source under verification:
- services/cache.js: monkey-patched Query.prototype.cache and
  Query.prototype.exec (overrideExec), plus the exported clearCache.
- middlewares/clearCache.js: clearCacheByUserId, the post-write
  invalidation middleware.

Shallow embedding conventions:
- JS values that flow into JSON.stringify are modelled by JsonValue, the
  JSON universe; JS objects are insertion-ordered association lists, as in
  the language semantics, so JSON.stringify is order-sensitive.
- JSON.stringify is modelled character-for-character for the constructs the
  program serializes, with string escaping restricted to the quote and
  backslash characters (control-character escapes never arise in any claim
  and are orthogonal to every statement below).
- Numbers are modelled as integers rendered in decimal; the program only
  ever serializes integer-valued fields.
- Redis is modelled at command level: a keyspace of hashes plus a TTL map.
  The semantics of HGET / HSET / DEL follow Redis of version at least 4.0,
  where HSET is variadic: extra arguments are consumed as further
  field/value pairs. HSET carries no expiry option, so the TTL map is
  untouched by it; GET-side expiry (a key with a scheduled expiry time is
  absent once now reaches it) is modelled in keyLive.
- The async exec override returns a JsOutcome: ret models a fulfilled
  promise, thrown a rejected one. The try/catch of overrideExec is
  translated exactly: a rejection of the awaited hget or of the awaited
  real exec is caught and the error object is RETURNED as the value.
- The serialized payload stored in a hash field is kept as its parse tree
  (a JsonValue): JSON.parse composed with JSON.stringify is the identity
  on the JSON universe, so on the hit path JSON.parse is the identity on
  the stored value. The fingerprint hash FIELD, where insertion order and
  character-level identity decide cache identity, is kept as the literal
  character list produced by JSON.stringify.
-/

namespace NodeRedisCache

/-- The JSON universe: the values the program passes to JSON.stringify.
Object fields are in insertion order, as JS objects are. -/
inductive JsonValue : Type where
  | vNull : JsonValue
  | vBool (flag : Bool) : JsonValue
  | vNum (intval : Int) : JsonValue
  | vStr (text : String) : JsonValue
  | vArr (items : List JsonValue) : JsonValue
  | vObj (entries : List (String × JsonValue)) : JsonValue

/-- JSON string escaping of one character (quote and backslash, the
escapes the cached data of this program can contain). -/
def jsonEscapeChar (c : Char) : List Char :=
  if c = '"' then ['\\', '"'] else if c = '\\' then ['\\', '\\'] else [c]

/-- JSON string escaping of a character sequence. -/
def jsonEscape : List Char → List Char
  | [] => []
  | c :: rest => jsonEscapeChar c ++ jsonEscape rest

mutual

/-- Decoder of jsonEscape, used to prove the escaping injective. -/
def jsonUnescape : List Char → Option (List Char)
  | [] => some []
  | c :: rest =>
    if c = '\\' then jsonUnescapeEsc rest
    else (jsonUnescape rest).map (fun t => c :: t)

/-- Decoder state after a backslash: the next character is the decoded
one. -/
def jsonUnescapeEsc : List Char → Option (List Char)
  | [] => none
  | d :: rest2 => (jsonUnescape rest2).map (fun t => d :: t)

end

/-- JSON.stringify of a string: quoted and escaped. -/
def jsonQuote (s : String) : List Char :=
  '"' :: (jsonEscape s.data ++ ['"'])

mutual

/-- JSON.stringify, producing the exact character sequence. -/
def jsonStringify : JsonValue → List Char
  | .vNull => ['n', 'u', 'l', 'l']
  | .vBool true => ['t', 'r', 'u', 'e']
  | .vBool false => ['f', 'a', 'l', 's', 'e']
  | .vNum n => (toString n).data
  | .vStr s => jsonQuote s
  | .vArr es => '[' :: (jsonStringifyElems es ++ [']'])
  | .vObj fs => '{' :: (jsonStringifyFields fs ++ ['}'])

/-- Comma-separated serialization of array elements. -/
def jsonStringifyElems : List JsonValue → List Char
  | [] => []
  | v :: rest =>
    jsonStringify v ++ (if rest.isEmpty then [] else ',' :: jsonStringifyElems rest)

/-- Comma-separated serialization of object fields, in insertion order. -/
def jsonStringifyFields : List (String × JsonValue) → List Char
  | [] => []
  | (k, v) :: rest =>
    jsonQuote k ++ ':' :: (jsonStringify v ++
      (if rest.isEmpty then [] else ',' :: jsonStringifyFields rest))

end

/-- Lookup in an insertion-ordered association list (JS property read,
Redis hash-field read). -/
def alGet {α β : Type} [DecidableEq α] : List (α × β) → α → Option β
  | [], _ => none
  | (k, v) :: rest, a => if k = a then some v else alGet rest a

/-- Update-or-append on an insertion-ordered association list. This is both
the JS object-literal spread-then-override semantics (an existing key keeps
its position and gets the new value, a new key is appended last) and the
Redis hash-field write. -/
def alSet {α β : Type} [DecidableEq α] : List (α × β) → α → β → List (α × β)
  | [], a, b => [(a, b)]
  | (k, v) :: rest, a, b =>
    if k = a then (a, b) :: rest else (k, v) :: alSet rest a b

/-- Removal of a key from an association list (Redis DEL on the keyspace:
the key is gone afterwards). -/
def alDel {α β : Type} [DecidableEq α] (l : List (α × β)) (a : α) :
    List (α × β) :=
  l.filter (fun p => !(decide (p.1 = a)))

/-- The mongoose Query object, with the parts overrideExec reads: the
filter conditions (getQuery()), the target collection name
(mongooseCollection.name), and the fields the cache annotation writes
(useCache, hashKey). Projection, sort and pagination bounds are part of
the query but are never read by the cache layer. -/
structure Query : Type where
  filter : List (String × JsonValue)
  projection : List (String × JsonValue)
  sortSpec : List (String × JsonValue)
  limitBound : Option Nat
  skipBound : Option Nat
  collectionName : String
  useCache : Bool
  hashKey : List Char

/-- The cache key computed by overrideExec:
JSON.stringify of the object literal spreading getQuery() and then
assigning collection = mongooseCollection.name. -/
def fingerprint (q : Query) : List Char :=
  jsonStringify (.vObj (alSet q.filter "collection" (.vStr q.collectionName)))

/-- A mongoose model instance (native record representation), as rebuilt
by new this.model(doc). -/
structure MDoc : Type where
  fields : List (String × JsonValue)

/-- The model constructor applied to a plain deserialized object. -/
def modelNew (v : JsonValue) : MDoc :=
  MDoc.mk (match v with | .vObj fs => fs | _ => [])

/-- The result of a real query execution: a single record or a sequence of
records (the shapes the external executor contract supplies). -/
inductive QueryResult : Type where
  | one (d : MDoc) : QueryResult
  | many (ds : List MDoc) : QueryResult

/-- JSON.stringify of an exec result, as a parse tree: a document
serializes to its plain field object, an array of documents to the array
of those objects. -/
def resultToJson : QueryResult → JsonValue
  | .one d => .vObj d.fields
  | .many ds => .vArr (ds.map (fun d => .vObj d.fields))

/-- The hit-path rehydration of overrideExec:
Array.isArray(cacheObject) ? cacheObject.map(doc => new this.model(doc))
: new this.model(cacheObject). -/
def rehydrate (v : JsonValue) : QueryResult :=
  match v with
  | .vArr es => .many (es.map modelNew)
  | other => .one (modelNew other)

/-- Outcome of an async JS call: a fulfilled value or a rejection. -/
inductive JsOutcome (α : Type) : Type where
  | ret (v : α) : JsOutcome α
  | thrown (e : String) : JsOutcome α

/-- The value overrideExec resolves with: a query result, or an error
object returned as a plain value by the catch branch. -/
inductive ExecValue : Type where
  | res (r : QueryResult) : ExecValue
  | errVal (e : String) : ExecValue

/-- Behavior of the awaited client.hget call on this invocation: the
backend answers from its state, or the promise rejects (backend
unreachable). -/
inductive HgetBehavior : Type where
  | ok : HgetBehavior
  | fail (e : String) : HgetBehavior

/-- The Redis keyspace as used by this program: top-level keys holding
hashes, plus the per-key expiry schedule (absolute expiry instants). -/
structure RedisState : Type where
  hashes : List (List Char × List (List Char × JsonValue))
  expireAt : List (List Char × Nat)

/-- A key is live at an instant when it has no scheduled expiry or the
instant is before it (Redis treats a key as gone from its expiry time
on). -/
def keyLive (s : RedisState) (now : Nat) (key : List Char) : Bool :=
  match alGet s.expireAt key with
  | none => true
  | some t => decide (now < t)

/-- HGET key field: the stored field value, if the key is live and the
field present. Absence is a normal reply, not an error. -/
def hget (s : RedisState) (now : Nat) (key field : List Char) :
    Option JsonValue :=
  if keyLive s now key then (alGet s.hashes key).bind (fun h => alGet h field)
  else none

/-- HSET key f1 v1 f2 v2 ... (variadic form, Redis 4.0 and later): writes
the field/value pairs into the hash at key, creating it if absent; an
expired key is lazily gone, so the write starts from an empty hash and
clears the stale expiry. HSET never schedules an expiry. -/
def hsetCmd (s : RedisState) (now : Nat) (key : List Char)
    (pairs : List (List Char × JsonValue)) : RedisState :=
  let base := if keyLive s now key then (alGet s.hashes key).getD [] else []
  let newHash := pairs.foldl (fun h p => alSet h p.1 p.2) base
  { hashes := alSet s.hashes key newHash
    expireAt := if keyLive s now key then s.expireAt else alDel s.expireAt key }

/-- DEL key: removes the key and its expiry schedule. Deleting an absent
key is a no-op reply, not an error. -/
def redisDel (s : RedisState) (key : List Char) : RedisState :=
  { hashes := alDel s.hashes key
    expireAt := alDel s.expireAt key }

/-- Query.prototype.exec override (overrideExec in services/cache.js).
Parameters: the query, the original exec captured at patch time
(realExec), the reachability of the backend on the hget await, the
current instant, and the Redis state. Returns the call outcome and the
resulting Redis state.

Source, line by line:
- if (!this.useCache) return exec.apply(this, params);
- const key = JSON.stringify(spread of getQuery() with collection);
- try: const cacheValue = await client.hget(this.hashKey, key);
  a rejection here is caught below and the error is returned as the value;
- if (cacheValue) rehydrate and return it, without touching exec;
- const result = await exec.apply(this, params); a rejection is caught
  below and the error is returned as the value;
- client.hset(this.hashKey, key, JSON.stringify(result), EX, 10):
  fire-and-forget variadic HSET, storing the payload under the fingerprint
  field and a spurious field EX = 10, scheduling no expiry;
- catch (error) return error. -/
def overrideExec (q : Query) (realExec : Query → JsOutcome QueryResult)
    (hb : HgetBehavior) (now : Nat) (s : RedisState) :
    JsOutcome ExecValue × RedisState :=
  if q.useCache = false then
    (match realExec q with
     | .ret r => .ret (.res r)
     | .thrown e => .thrown e, s)
  else
    match hb with
    | .fail e => (.ret (.errVal e), s)
    | .ok =>
      match hget s now q.hashKey (fingerprint q) with
      | some cacheValue => (.ret (.res (rehydrate cacheValue)), s)
      | none =>
        match realExec q with
        | .thrown e => (.ret (.errVal e), s)
        | .ret result =>
          (.ret (.res result),
           hsetCmd s now q.hashKey
             [(fingerprint q, resultToJson result),
              (['E', 'X'], .vStr "10")])

/-- The options object passed to Query.prototype.cache; a missing key
property (undefined) is modelled by none. -/
structure CacheOptions : Type where
  key : Option JsonValue

/-- JS truthiness on the JSON universe (empty string, zero, null and
false are falsy; arrays and objects are truthy). -/
def jsTruthy : JsonValue → Bool
  | .vNull => false
  | .vBool b => b
  | .vNum n => decide (n ≠ 0)
  | .vStr s => decide (s ≠ "")
  | .vArr _ => true
  | .vObj _ => true

/-- The expression options.key or-else the empty string: a missing or
falsy key yields the empty string. -/
def jsOrEmptyStr : Option JsonValue → JsonValue
  | none => .vStr ""
  | some v => if jsTruthy v then v else .vStr ""

/-- Query.prototype.cache: marks the query cached and records
this.hashKey = JSON.stringify(options.key or-else the empty string).
The body performs no validation and cannot fail. -/
def cache (q : Query) (options : CacheOptions) : Query :=
  { q with useCache := true
           hashKey := jsonStringify (jsOrEmptyStr options.key) }

/-- clearCache from services/cache.js:
client.del(JSON.stringify(hashKey)). -/
def clearCache (hashKey : JsonValue) (s : RedisState) : RedisState :=
  redisDel s (jsonStringify hashKey)

/-- The top-level Redis key under which a query annotated with a string
namespace n stores and under which invalidation for n deletes. -/
def nsKey (n : String) : List Char :=
  jsonStringify (.vStr n)

/-- A listener closure registerable on the response finish event; the
only one this program creates is afterResponse, capturing the acting
principal identifier req.user.id. -/
inductive Handler : Type where
  | afterResponse (uid : String) : Handler
  deriving DecidableEq

/-- State threaded through the middleware model: the Redis state, the
finish-event listener list of the response, and the log of clearCache
invocations (each entry the identifier it was called with). -/
structure MwState : Type where
  redis : RedisState
  listeners : List Handler
  calls : List String

/-- res.removeListener: removes one matching registered instance. -/
def removeListener : List Handler → Handler → List Handler
  | [], _ => []
  | h :: rest, t => if h = t then rest else h :: removeListener rest t

/-- The afterResponse closure body: first removes itself from the finish
listeners, then, only when the finalized status is below 400, invokes
clearCache(req.user.id). -/
def runHandler (status : Nat) (st : MwState) : Handler → MwState
  | .afterResponse uid =>
    let st1 := { st with listeners := removeListener st.listeners (.afterResponse uid) }
    if status < 400 then
      { st1 with calls := st1.calls ++ [uid]
                 redis := clearCache (.vStr uid) st1.redis }
    else st1

/-- Emission of the finish event: Node runs a snapshot of the listener
list taken at emission time, so a listener removing itself affects later
emissions, not the current one. -/
def emitFinish (status : Nat) (st : MwState) : MwState :=
  st.listeners.foldl (runHandler status) st

/-- Iterated emission, to state exactly-once behavior however many times
the completion could be observed; zero emissions model a request aborted
before completion. -/
def emitFinishN : Nat → Nat → MwState → MwState
  | 0, _, st => st
  | k + 1, status, st => emitFinishN k status (emitFinish status st)

/-- clearCacheByUserId from middlewares/clearCache.js: registers the
afterResponse closure on the finish event and passes control on. -/
def clearCacheByUserId (uid : String) (st : MwState) : MwState :=
  { st with listeners := st.listeners ++ [.afterResponse uid] }


end NodeRedisCache

namespace NodeRedisCache

/-! Basic association-list lemmas. -/

theorem alGet_alSet_self {α β : Type} [DecidableEq α]
    (l : List (α × β)) (k : α) (v : β) : alGet (alSet l k v) k = some v := by
  induction l with
  | nil => simp [alSet, alGet]
  | cons p rest ih =>
    obtain ⟨k0, v0⟩ := p
    by_cases h : k0 = k
    · simp [alSet, alGet, h]
    · simp [alSet, alGet, h, ih]

theorem alGet_alSet_ne {α β : Type} [DecidableEq α]
    (l : List (α × β)) (k k' : α) (v : β) (hne : k' ≠ k) :
    alGet (alSet l k v) k' = alGet l k' := by
  have hkk : ¬ k = k' := fun hh => hne hh.symm
  induction l with
  | nil => simp [alSet, alGet, hkk]
  | cons p rest ih =>
    obtain ⟨k0, v0⟩ := p
    by_cases h : k0 = k
    · have hs : alSet ((k0, v0) :: rest) k v = (k, v) :: rest := by
        simp [alSet, h]
      have h0 : ¬ k0 = k' := fun hh => hkk (h.symm.trans hh)
      rw [hs]
      simp [alGet, hkk, h0]
    · have hs : alSet ((k0, v0) :: rest) k v = (k0, v0) :: alSet rest k v := by
        simp [alSet, h]
      rw [hs]
      by_cases h2 : k0 = k' <;> simp [alGet, h2, ih]

theorem alGet_alDel_self {α β : Type} [DecidableEq α]
    (l : List (α × β)) (k : α) : alGet (alDel l k) k = none := by
  induction l with
  | nil => rfl
  | cons p rest ih =>
    obtain ⟨k0, v0⟩ := p
    by_cases h : k0 = k
    · simpa [alDel, List.filter_cons, h] using ih
    · simpa [alDel, List.filter_cons, alGet, h] using ih

theorem alGet_alDel_ne {α β : Type} [DecidableEq α]
    (l : List (α × β)) (k k' : α) (hne : k' ≠ k) :
    alGet (alDel l k) k' = alGet l k' := by
  induction l with
  | nil => rfl
  | cons p rest ih =>
    obtain ⟨k0, v0⟩ := p
    by_cases h : k0 = k
    · have hd : alDel ((k0, v0) :: rest) k = alDel rest k := by
        simp [alDel, List.filter_cons, h]
      have h0 : ¬ k0 = k' := fun hh => hne (hh.symm.trans h)
      rw [hd, ih]
      simp [alGet, h0]
    · have hd : alDel ((k0, v0) :: rest) k = (k0, v0) :: alDel rest k := by
        simp [alDel, List.filter_cons, h]
      rw [hd]
      by_cases h2 : k0 = k' <;> simp [alGet, h2, ih]

theorem alDel_of_absent {α β : Type} [DecidableEq α]
    (l : List (α × β)) (k : α) : alGet l k = none → alDel l k = l := by
  induction l with
  | nil => intro _; rfl
  | cons p rest ih =>
    obtain ⟨k0, v0⟩ := p
    intro h
    by_cases hk : k0 = k
    · simp [alGet, hk] at h
    · have h2 := ih (by simpa [alGet, hk] using h)
      simp only [alDel, List.filter_cons] at h2 ⊢
      simp [hk, h2]

/-! Injectivity of the JSON string encoding. -/

theorem jsonUnescape_jsonEscape (s : List Char) :
    jsonUnescape (jsonEscape s) = some s := by
  induction s with
  | nil => rfl
  | cons c rest ih =>
    by_cases h1 : c = '"'
    · subst h1
      simp [jsonEscape, jsonEscapeChar, jsonUnescape, jsonUnescapeEsc, ih]
    · by_cases h2 : c = '\\'
      · subst h2
        simp [jsonEscape, jsonEscapeChar, jsonUnescape, jsonUnescapeEsc, ih]
      · simp [jsonEscape, jsonEscapeChar, jsonUnescape, h1, h2, ih]

theorem jsonEscape_inj {a b : List Char} (h : jsonEscape a = jsonEscape b) :
    a = b := by
  have ha := jsonUnescape_jsonEscape a
  rw [h, jsonUnescape_jsonEscape b] at ha
  exact (Option.some.inj ha).symm

theorem jsonQuote_inj {s1 s2 : String} (h : jsonQuote s1 = jsonQuote s2) :
    s1 = s2 := by
  unfold jsonQuote at h
  injection h with _ h2
  have h3 := List.append_cancel_right h2
  exact String.ext (jsonEscape_inj h3)

theorem nsKey_inj {n m : String} (h : nsKey n = nsKey m) : n = m := by
  unfold nsKey jsonStringify at h
  exact jsonQuote_inj h

/-! Decomposition of the spread-set object around the written key. -/

theorem alSet_decomp {α β : Type} [DecidableEq α] :
    ∀ (l : List (α × β)) (k : α),
      ∃ pre post, ∀ v : β, alSet l k v = pre ++ (k, v) :: post
  | [], k => ⟨[], [], fun _ => rfl⟩
  | (k0, v0) :: rest, k => by
    by_cases h : k0 = k
    · exact ⟨[], rest, fun v => by simp [alSet, h]⟩
    · obtain ⟨pre, post, hp⟩ := alSet_decomp rest k
      exact ⟨(k0, v0) :: pre, post, fun v => by simp [alSet, h, hp v]⟩

/-! The field serialization determines the value serialized at a fixed
position, all other fields being equal. -/

theorem jsonStringifyFields_middle_inj :
    ∀ (pre : List (String × JsonValue)) (k : String) (v1 v2 : JsonValue)
      (post : List (String × JsonValue)),
      jsonStringifyFields (pre ++ (k, v1) :: post) =
        jsonStringifyFields (pre ++ (k, v2) :: post) →
      jsonStringify v1 = jsonStringify v2
  | [], k, v1, v2, post, h => by
    simp only [List.nil_append, jsonStringifyFields] at h
    have h2 := List.append_cancel_left h
    injection h2 with _ h3
    exact List.append_cancel_right h3
  | (k0, u) :: pre, k, v1, v2, post, h => by
    simp only [List.cons_append, jsonStringifyFields] at h
    have hne1 : (pre ++ (k, v1) :: post).isEmpty = false := by
      cases pre <;> rfl
    have hne2 : (pre ++ (k, v2) :: post).isEmpty = false := by
      cases pre <;> rfl
    simp only [List.append_eq] at h
    rw [hne1, hne2] at h
    simp only [Bool.false_eq_true, if_false] at h
    have h2 := List.append_cancel_left h
    injection h2 with _ h3
    have h4 := List.append_cancel_left h3
    injection h4 with _ h5
    exact jsonStringifyFields_middle_inj pre k v1 v2 post h5

/-- Unfolding of the fingerprint to its brace-delimited field list. -/
theorem fingerprint_eq (q : Query) :
    fingerprint q =
      '\x7b' :: (jsonStringifyFields
        (alSet q.filter "collection" (.vStr q.collectionName)) ++ ['\x7d']) := rfl

/-- The fingerprint field never collides with the spurious EX field the
variadic HSET writes: a stringified object starts with a brace. -/
theorem fingerprint_ne_EX (q : Query) : fingerprint q ≠ ['E', 'X'] := by
  rw [fingerprint_eq]
  intro h
  injection h with h1 _
  exact absurd h1 (by decide)

/-- Serialization and hit-path rehydration compose to the identity on
results: the hit returns the same logical result, rebuilt through the
model constructor. -/
theorem rehydrate_resultToJson (r : QueryResult) :
    rehydrate (resultToJson r) = r := by
  cases r with
  | one d => rfl
  | many ds =>
    simp only [resultToJson, rehydrate, List.map_map]
    have h : (modelNew ∘ fun (d : MDoc) => JsonValue.vObj d.fields) = id := rfl
    rw [h, List.map_id]

/-- Reading back the fingerprint field right after the miss-then-populate
HSET: the payload is there, and no expiry governs it at any later
instant. -/
theorem hget_after_populate (s : RedisState) (now now2 : Nat)
    (key fp : List Char) (payload : JsonValue)
    (hfp : fp ≠ ['E', 'X']) (hexp : alGet s.expireAt key = none) :
    hget (hsetCmd s now key [(fp, payload), (['E', 'X'], .vStr "10")]) now2 key fp =
      some payload := by
  have hlive : keyLive s now key = true := by
    unfold keyLive
    rw [hexp]
  have hsc : hsetCmd s now key [(fp, payload), (['E', 'X'], .vStr "10")] =
      RedisState.mk
        (alSet s.hashes key
          (alSet (alSet ((alGet s.hashes key).getD []) fp payload)
            (['E', 'X']) (.vStr "10")))
        s.expireAt := by
    simp [hsetCmd, hlive]
  rw [hsc]
  unfold hget keyLive
  simp only [hexp]
  simp [alGet_alSet_self, alGet_alSet_ne _ _ _ _ hfp]

/-- The HSET of the populate path schedules no expiry for the namespace
key it writes. -/
theorem expireAt_after_populate (s : RedisState) (now : Nat)
    (key : List Char) (pairs : List (List Char × JsonValue))
    (hexp : alGet s.expireAt key = none) :
    alGet (hsetCmd s now key pairs).expireAt key = none := by
  have hlive : keyLive s now key = true := by
    unfold keyLive
    rw [hexp]
  simp [hsetCmd, hlive, hexp]

/-! Event-emission lemmas for the invalidation middleware. -/

theorem emitFinish_no_listeners (status : Nat) (st : MwState)
    (h : st.listeners = []) : emitFinish status st = st := by
  unfold emitFinish
  rw [h]
  rfl

theorem emitFinishN_no_listeners (k status : Nat) (st : MwState)
    (h : st.listeners = []) : emitFinishN k status st = st := by
  induction k with
  | zero => rfl
  | succ k ih =>
    simp only [emitFinishN]
    rw [emitFinish_no_listeners status st h]
    exact ih

theorem emitFinish_single (status : Nat) (s0 : RedisState) (uid : String)
    (cs : List String) :
    emitFinish status (MwState.mk s0 [Handler.afterResponse uid] cs) =
      if status < 400 then
        MwState.mk (clearCache (.vStr uid) s0) [] (cs ++ [uid])
      else MwState.mk s0 [] cs := by
  by_cases h : status < 400 <;>
    simp [emitFinish, runHandler, removeListener, h]

/-! Concrete fixtures used by witnesses and counterexamples. -/

/-- The empty Redis keyspace. -/
def emptyRedis : RedisState := RedisState.mk [] []

/-- A sample stored record. -/
def sampleDoc : MDoc := MDoc.mk [("_id", .vStr "1"), ("title", .vStr "first")]

/-- A sample sequence result, as a find() would produce. -/
def sampleResult : QueryResult := .many [sampleDoc]

/-- The running example: find on blogs filtered by _user = u1, annotated
with namespace u1. -/
def qBase : Query :=
  Query.mk [("_user", .vStr "u1")] [] [] none none "blogs" true (nsKey "u1")

/-- A real executor that succeeds with the sample result. -/
def realExecOk : Query → JsOutcome QueryResult := fun _ => .ret sampleResult

/-- A real executor whose promise rejects. -/
def realExecBad : Query → JsOutcome QueryResult := fun _ => .thrown "boom"

/-! Further fixtures for the claims. -/

/-- The running example with the same filter and collection as qBase but a
projection, a sort, a limit and a skip: options the key derivation never
reads. -/
def qBaseProj : Query :=
  Query.mk [("_user", .vStr "u1")] [("title", .vNum 1)] [("title", .vNum 1)]
    (some 5) (some 2) "blogs" true (nsKey "u1")

/-- Same filter as qBase, different target collection. -/
def qUsers : Query :=
  Query.mk [("_user", .vStr "u1")] [] [] none none "users" true (nsKey "u1")

/-- Two-predicate filter inserted in order a then b. -/
def qOrderAB : Query :=
  Query.mk [("a", .vStr "1"), ("b", .vStr "2")] [] [] none none "blogs" true
    (nsKey "u1")

/-- The same two predicates inserted in order b then a. -/
def qOrderBA : Query :=
  Query.mk [("b", .vStr "2"), ("a", .vStr "1")] [] [] none none "blogs" true
    (nsKey "u1")

/-- A real executor for the second call of an idempotency scenario; it
would reject if it were ever consulted. -/
def realExecTwo : Query → JsOutcome QueryResult :=
  fun _ => .thrown "executor invoked again"

/-- C1 counterexample input: the two insertion orders carry the same
predicate set, projection, sort, limits and collection. -/
theorem fingerprint_order_dependent_cex :
    qOrderAB.filter.Perm qOrderBA.filter ∧
    qOrderAB.collectionName = qOrderBA.collectionName ∧
    qOrderAB.projection = qOrderBA.projection ∧
    qOrderAB.sortSpec = qOrderBA.sortSpec ∧
    qOrderAB.limitBound = qOrderBA.limitBound ∧
    qOrderAB.skipBound = qOrderBA.skipBound ∧
    fingerprint qOrderAB ≠ fingerprint qOrderBA :=
  ⟨List.Perm.swap _ _ _, rfl, rfl, rfl, rfl, rfl, by decide⟩

/-- C1 (corrected): the key is deterministic only up to the literal filter
object: two descriptors with the same filter fields in the same insertion
order and the same collection name get the same key, whatever their
projection, sort or pagination bounds; but JSON.stringify serializes
fields in insertion order, so semantically equal descriptors built via
different call orders can get different keys. -/
theorem fingerprint_filter_collection_determined (d1 d2 : Query)
    (hf : d1.filter = d2.filter) (hc : d1.collectionName = d2.collectionName) :
    fingerprint d1 = fingerprint d2 := by
  unfold fingerprint
  rw [hf, hc]

/-- C1 witness: descriptors differing in projection, sort, limit and skip
still agree on the key. -/
theorem fingerprint_filter_collection_determined_witness :
    qBase.filter = qBaseProj.filter ∧
    qBase.collectionName = qBaseProj.collectionName ∧
    qBase.projection ≠ qBaseProj.projection ∧
    qBase.limitBound ≠ qBaseProj.limitBound ∧
    fingerprint qBase = fingerprint qBaseProj :=
  ⟨rfl, rfl, (List.cons_ne_nil _ _).symm, by decide,
    fingerprint_filter_collection_determined qBase qBaseProj rfl rfl⟩

/-- C2 (code_bug): the populate path issues HSET hashKey field value EX 10,
but HSET has no expiry option: the trailing arguments become a spurious
hash field and no expiry is ever scheduled, so the entry stored at instant
0 is still a hit at instant 10 (and at every later instant), and the
expiry schedule for the namespace key stays empty. -/
theorem populate_entry_never_expires :
    ∀ t : Nat,
      hget (overrideExec qBase realExecOk .ok 0 emptyRedis).2 t (nsKey "u1")
          (fingerprint qBase) = some (resultToJson sampleResult) ∧
      alGet (overrideExec qBase realExecOk .ok 0 emptyRedis).2.expireAt
          (nsKey "u1") = none :=
  fun _ => ⟨rfl, rfl⟩

/-- C3 counterexample: with a rejecting real executor, the overall call
resolves with the error object as its value instead of rejecting. -/
theorem exec_failure_not_rethrown_cex :
    (overrideExec qBase realExecBad .ok 0 emptyRedis).1 = .ret (.errVal "boom") ∧
    (overrideExec qBase realExecBad .ok 0 emptyRedis).1 ≠ .thrown "boom" := by
  have h1 : (overrideExec qBase realExecBad .ok 0 emptyRedis).1 =
      .ret (.errVal "boom") := rfl
  exact ⟨h1, fun h => JsOutcome.noConfusion (h1.symm.trans h)⟩

/-- C3 (corrected): when the real executor fails on a cached miss, the
try/catch of overrideExec catches the rejection and the call resolves,
returning the error object unmodified as its value; no cache entry is
written (the state is unchanged). -/
theorem exec_failure_caught_and_returned (q : Query)
    (realExec : Query → JsOutcome QueryResult) (e : String) (now : Nat)
    (s : RedisState) (hc : q.useCache = true)
    (hm : hget s now q.hashKey (fingerprint q) = none)
    (hf : realExec q = .thrown e) :
    overrideExec q realExec .ok now s = (.ret (.errVal e), s) := by
  simp [overrideExec, hc, hm, hf]

/-- C3 witness: the concrete failing-executor run. -/
theorem exec_failure_caught_and_returned_witness :
    qBase.useCache = true ∧
    overrideExec qBase realExecBad .ok 0 emptyRedis =
      (.ret (.errVal "boom"), emptyRedis) :=
  ⟨rfl, exec_failure_caught_and_returned qBase realExecBad "boom" 0 emptyRedis
    rfl rfl rfl⟩

/-- C4 counterexample: with the backend lookup rejecting, the call does
not return the fresh execution result; it returns the backend error
object as its value. -/
theorem cache_lookup_failure_no_fallthrough_cex :
    (overrideExec qBase realExecOk (.fail "redis down") 0 emptyRedis).1 ≠
      .ret (.res sampleResult) ∧
    (overrideExec qBase realExecOk (.fail "redis down") 0 emptyRedis).1 =
      .ret (.errVal "redis down") := by
  have h1 : (overrideExec qBase realExecOk (.fail "redis down") 0 emptyRedis).1 =
      .ret (.errVal "redis down") := rfl
  refine ⟨fun h => ?_, h1⟩
  have h2 := h1.symm.trans h
  injection h2 with h3
  exact ExecValue.noConfusion h3

/-- C4 (corrected): a cache-backend lookup failure does not fall through
to the real executor: the catch branch returns the error object as the
call value, for every real executor (so the real executor is never
consulted), and the state is unchanged. The backend failure is therefore
visible to the caller as the resolved value. -/
theorem cache_lookup_failure_caught (q : Query)
    (realExec : Query → JsOutcome QueryResult) (e : String) (now : Nat)
    (s : RedisState) (hc : q.useCache = true) :
    overrideExec q realExec (.fail e) now s = (.ret (.errVal e), s) := by
  simp [overrideExec, hc]

/-- C4 witness: the concrete unreachable-backend run. -/
theorem cache_lookup_failure_caught_witness :
    qBase.useCache = true ∧
    overrideExec qBase realExecOk (.fail "redis down") 0 emptyRedis =
      (.ret (.errVal "redis down"), emptyRedis) :=
  ⟨rfl, cache_lookup_failure_caught qBase realExecOk "redis down" 0 emptyRedis rfl⟩

/-- C5 (confirmed): through the invalidation middleware, a finalized
status of 400 or above never triggers clearCache; a status below 400
triggers it exactly once with the acting principal identifier, however
many times the finish completion is observed; and an aborted request
(finish never emitted) triggers nothing. -/
theorem write_gated_invalidation (uid : String) (status k : Nat)
    (s0 : RedisState) :
    (400 ≤ status →
      (emitFinishN k status
        (clearCacheByUserId uid (MwState.mk s0 [] []))).calls = []) ∧
    (status < 400 → 1 ≤ k →
      (emitFinishN k status
        (clearCacheByUserId uid (MwState.mk s0 [] []))).calls = [uid]) ∧
    (k = 0 →
      (emitFinishN k status
        (clearCacheByUserId uid (MwState.mk s0 [] []))).calls = []) := by
  have hmw : clearCacheByUserId uid (MwState.mk s0 [] []) =
      MwState.mk s0 [Handler.afterResponse uid] [] := rfl
  cases k with
  | zero =>
    exact ⟨fun _ => rfl, fun _ hk => absurd hk (by decide), fun _ => rfl⟩
  | succ k =>
    rw [hmw]
    simp only [emitFinishN]
    rw [emitFinish_single status s0 uid []]
    by_cases h : status < 400
    · rw [if_pos h,
        emitFinishN_no_listeners k status
          (MwState.mk (clearCache (.vStr uid) s0) [] ([] ++ [uid])) rfl]
      exact ⟨fun h4 => absurd h (by omega), fun _ _ => rfl,
        fun h0 => absurd h0 (Nat.succ_ne_zero k)⟩
    · rw [if_neg h,
        emitFinishN_no_listeners k status (MwState.mk s0 [] []) rfl]
      exact ⟨fun _ => rfl, fun hlt _ => absurd hlt h,
        fun h0 => absurd h0 (Nat.succ_ne_zero k)⟩

/-- C5 witness: a successful write observed twice fires exactly one
invalidation with the principal identifier; a failed write observed three
times fires none. -/
theorem write_gated_invalidation_witness :
    (emitFinishN 2 200
      (clearCacheByUserId "u1" (MwState.mk emptyRedis [] []))).calls = ["u1"] ∧
    (emitFinishN 3 500
      (clearCacheByUserId "u1" (MwState.mk emptyRedis [] []))).calls = [] := by
  have h1 := write_gated_invalidation "u1" 200 2 emptyRedis
  have h2 := write_gated_invalidation "u1" 500 3 emptyRedis
  exact ⟨h1.2.1 (by decide) (by decide), h2.1 (by decide)⟩

/-- C6 (confirmed): after one miss-then-populate cycle for a namespace and
fingerprint, every later execute call with the same descriptor returns the
same logical result, rehydrated through the model constructor, without
consulting the real executor (the conclusion holds for every second
executor) and without changing the state; nothing ever expires the entry
in between, matching the before-expiry guard of the claim. -/
theorem idempotent_hit (q : Query) (realExec : Query → JsOutcome QueryResult)
    (r : QueryResult) (now : Nat) (s : RedisState)
    (hc : q.useCache = true)
    (hm : hget s now q.hashKey (fingerprint q) = none)
    (hx : realExec q = .ret r)
    (he : alGet s.expireAt q.hashKey = none) :
    (overrideExec q realExec .ok now s).1 = .ret (.res r) ∧
    ∀ (realExec2 : Query → JsOutcome QueryResult) (now2 : Nat),
      overrideExec q realExec2 .ok now2 (overrideExec q realExec .ok now s).2 =
        (.ret (.res r), (overrideExec q realExec .ok now s).2) := by
  have hrun : overrideExec q realExec .ok now s =
      (.ret (.res r),
       hsetCmd s now q.hashKey
         [(fingerprint q, resultToJson r), (['E', 'X'], .vStr "10")]) := by
    simp [overrideExec, hc, hm, hx]
  refine ⟨by rw [hrun], ?_⟩
  intro realExec2 now2
  rw [hrun]
  have hh := hget_after_populate s now now2 q.hashKey (fingerprint q)
    (resultToJson r) (fingerprint_ne_EX q) he
  simp [overrideExec, hc, hh, rehydrate_resultToJson]

/-- C6 witness: the concrete miss-then-populate and the subsequent hit at
a later instant, under an executor that would reject if consulted. -/
theorem idempotent_hit_witness :
    (overrideExec qBase realExecOk .ok 0 emptyRedis).1 = .ret (.res sampleResult) ∧
    overrideExec qBase realExecTwo .ok 7
        (overrideExec qBase realExecOk .ok 0 emptyRedis).2 =
      (.ret (.res sampleResult), (overrideExec qBase realExecOk .ok 0 emptyRedis).2) := by
  have h := idempotent_hit qBase realExecOk sampleResult 0 emptyRedis rfl rfl rfl rfl
  exact ⟨h.1, h.2 realExecTwo 7⟩

/-- C7 (confirmed): deleting the namespace of a string key n makes every
fingerprint under n a miss, leaves lookups under every other namespace m
unchanged, is a no-op on a namespace with no entries and no expiry record,
and deletes exactly the key under which a query annotated with key n
stores its entries. -/
theorem scoped_invalidation (n m : String) (hnm : m ≠ n) (s : RedisState)
    (now : Nat) (fp : List Char) (q : Query) :
    hget (clearCache (.vStr n) s) now (nsKey n) fp = none ∧
    hget (clearCache (.vStr n) s) now (nsKey m) fp = hget s now (nsKey m) fp ∧
    (alGet s.hashes (nsKey n) = none → alGet s.expireAt (nsKey n) = none →
      clearCache (.vStr n) s = s) ∧
    (cache q (CacheOptions.mk (some (.vStr n)))).hashKey = nsKey n := by
  have hkey : nsKey m ≠ nsKey n := fun h => hnm (nsKey_inj h)
  refine ⟨?_, ?_, ?_, ?_⟩
  · simp [hget, keyLive, clearCache, redisDel, nsKey, alGet_alDel_self]
  · simp [hget, keyLive, clearCache, redisDel, nsKey,
      alGet_alDel_ne _ _ _ (show jsonStringify (.vStr m) ≠ jsonStringify (.vStr n) from hkey)]
  · intro h1 h2
    unfold clearCache redisDel
    rw [show jsonStringify (.vStr n) = nsKey n from rfl,
      alDel_of_absent _ _ h1, alDel_of_absent _ _ h2]
  · by_cases hn : n = "" <;> simp [cache, jsOrEmptyStr, jsTruthy, nsKey, hn]

/-- Concrete keyspace holding one entry under namespace u1 and one under
namespace u2. -/
def sTwo : RedisState :=
  RedisState.mk
    [(nsKey "u1", [(fingerprint qBase, resultToJson sampleResult)]),
     (nsKey "u2", [(['f'], .vNull)])]
    []

/-- C7 witness: deleting u1 evicts its entry, leaves u2 untouched,
deleting the empty namespace u3 is a no-op, and the annotation key agrees
with the invalidation key. -/
theorem scoped_invalidation_witness :
    hget (clearCache (.vStr "u1") sTwo) 0 (nsKey "u1") (fingerprint qBase) = none ∧
    hget (clearCache (.vStr "u1") sTwo) 0 (nsKey "u2") ['f'] =
      hget sTwo 0 (nsKey "u2") ['f'] ∧
    clearCache (.vStr "u3") sTwo = sTwo ∧
    (cache qBase (CacheOptions.mk (some (.vStr "u1")))).hashKey = nsKey "u1" := by
  have h1 := scoped_invalidation "u1" "u2" (by decide) sTwo 0 (fingerprint qBase) qBase
  have h2 := scoped_invalidation "u1" "u2" (by decide) sTwo 0 ['f'] qBase
  have h3 := scoped_invalidation "u3" "u1" (by decide) sTwo 0 [] qBase
  exact ⟨h1.1, h2.2.1, h3.2.2.1 rfl rfl, h1.2.2.2⟩

/-- C8 (confirmed): descriptors with identical filters but different
collection names never share a fingerprint: the collection name is folded
into the serialized key at a fixed position and the string encoding is
injective. -/
theorem fingerprint_collection_isolation (d1 d2 : Query)
    (hf : d1.filter = d2.filter)
    (hc : d1.collectionName ≠ d2.collectionName) :
    fingerprint d1 ≠ fingerprint d2 := by
  intro h
  apply hc
  rw [fingerprint_eq, fingerprint_eq, hf] at h
  injection h with _ h2
  have h3 := List.append_cancel_right h2
  obtain ⟨pre, post, hp⟩ := alSet_decomp d2.filter "collection"
  rw [hp, hp] at h3
  have h4 := jsonStringifyFields_middle_inj pre "collection" _ _ post h3
  simp only [jsonStringify] at h4
  exact jsonQuote_inj h4

/-- C8 witness: same predicates on blogs versus users, distinct keys. -/
theorem fingerprint_collection_isolation_witness :
    qBase.filter = qUsers.filter ∧
    qBase.collectionName ≠ qUsers.collectionName ∧
    fingerprint qBase ≠ fingerprint qUsers :=
  ⟨rfl, by decide, fingerprint_collection_isolation qBase qUsers rfl (by decide)⟩

/-- C9 counterexample: annotating with no key surfaces no error at all:
the call returns normally (the annotation body is a total function with no
failure outcome) and silently marks the query cached under the empty
namespace. -/
theorem annotation_missing_key_no_error_cex :
    cache (Query.mk [("_user", .vStr "u1")] [] [] none none "blogs" false [])
        (CacheOptions.mk none) =
      Query.mk [("_user", .vStr "u1")] [] [] none none "blogs" true (nsKey "") :=
  rfl

/-- C9 (corrected): the annotation performs no validation and cannot fail:
for every options value it returns the descriptor marked cached with
hashKey the serialization of the key defaulted through falsiness, so a
missing key, an explicit empty-string key and a falsy key such as 0 all
silently select the empty namespace; no error is surfaced at annotation
time or later by this layer. -/
theorem annotation_never_validates (q : Query) (opts : CacheOptions) :
    (cache q opts).useCache = true ∧
    (cache q opts).hashKey = jsonStringify (jsOrEmptyStr opts.key) ∧
    cache q (CacheOptions.mk none) = cache q (CacheOptions.mk (some (.vStr ""))) ∧
    (cache q (CacheOptions.mk (some (.vNum 0)))).hashKey = nsKey "" :=
  ⟨rfl, rfl, rfl, rfl⟩

/-- A real executor returning a fresh single record, distinct from the
sample payload. -/
def realExecFresh : Query → JsOutcome QueryResult :=
  fun _ => .ret (.one (MDoc.mk [("fresh", .vStr "row")]))

/-- C10 (confirmed, implicit): the fingerprint reads only the filter and
the collection name, so descriptors differing only in projection, sort,
limit or skip collide; the collection field is assigned over the spread
filter, so a filter condition on a field literally named collection is
clobbered and such descriptors collide too; and execute then serves one
query the cached payload of the other: run after populating with qBase,
the qBaseProj call returns the cached sample sequence, while the same
call on an empty keyspace returns its own fresh result, and the two
results differ. -/
theorem fingerprint_ignores_options_and_serves_cross_results :
    (fingerprint qBase = fingerprint qBaseProj ∧
      qBase.limitBound ≠ qBaseProj.limitBound) ∧
    (fingerprint (Query.mk [("collection", .vStr "x")] [] [] none none "blogs"
        true (nsKey "u1")) =
      fingerprint (Query.mk [] [] [] none none "blogs" true (nsKey "u1")) ∧
      (Query.mk [("collection", .vStr "x")] [] [] none none "blogs" true
        (nsKey "u1")).filter ≠
        (Query.mk [] [] [] none none "blogs" true (nsKey "u1")).filter) ∧
    (overrideExec qBaseProj realExecFresh .ok 0
        (overrideExec qBase realExecOk .ok 0 emptyRedis).2).1 =
      .ret (.res sampleResult) ∧
    (overrideExec qBaseProj realExecFresh .ok 0 emptyRedis).1 =
      .ret (.res (.one (MDoc.mk [("fresh", .vStr "row")]))) ∧
    (JsOutcome.ret (ExecValue.res sampleResult) : JsOutcome ExecValue) ≠
      .ret (.res (.one (MDoc.mk [("fresh", .vStr "row")]))) := by
  refine ⟨⟨rfl, by decide⟩, ⟨rfl, List.cons_ne_nil _ _⟩, rfl, rfl, ?_⟩
  intro h
  injection h with h1
  injection h1 with h2
  exact QueryResult.noConfusion h2

end NodeRedisCache
